import Mathlib

/-!
Shallow embedding of the `toy_sha2` incremental SHA-2 engine
(`src/context.rs`, `src/params.rs`, `src/error.rs`, `src/ops.rs`).

Machine integers are modelled as `Nat` with explicit reduction `% 2 ^ w`
where the Rust code wraps.  The generic `Sha2Context<P>` becomes a
`Sha2Context` structure together with operations parameterised over a
`Sha2Params` structure value.  The generic engine code in `context.rs`
hardcodes several SHA-256-specific details (64 schedule entries, byte
offsets `t * 4`, the context's own rotation amounts, the length written
at bytes 56..63); the embedding reproduces those verbatim.
-/

namespace ToySha2

set_option maxRecDepth 100000
set_option maxHeartbeats 2000000

/-- `Sha2Corrupted` from `error.rs`. -/
inductive Sha2Corrupted where
  | success
  | badParam
  | stateError
deriving DecidableEq, Repr

/-- The parameter bundle: the associated consts and fns of the Rust
`Sha2Params` trait instances used by `Sha2Context`. -/
structure Sha2Params where
  wordBits : Nat
  msgBlockSize : Nat
  hashLenBytes : Nat
  h0 : List Nat
  k : List Nat
  parseWord : List Nat → Nat
  writeHash : List Nat → List Nat

/-- `Rotr::rotr` from `ops.rs`: `(self >> by) | (self << (W - by))`,
with the left shift wrapping modulo `2 ^ w` as Rust `<<` does. -/
def rotr (w x n : Nat) : Nat :=
  (x >>> n) ||| ((x <<< (w - n)) % 2 ^ w)

/-- `WrappingAdd::wrapping_add` at width `w`. -/
def wadd (w x y : Nat) : Nat := (x + y) % 2 ^ w

/-- Rust `!x` on a `w`-bit unsigned integer. -/
def wnot (w x : Nat) : Nat := (2 ^ w - 1) ^^^ x

/-- `Sha2Context::upper_sigma0` (rotation amounts hardcoded in `context.rs`). -/
def upperSigma0 (w x : Nat) : Nat := rotr w x 2 ^^^ rotr w x 13 ^^^ rotr w x 22

/-- `Sha2Context::upper_sigma1`. -/
def upperSigma1 (w x : Nat) : Nat := rotr w x 6 ^^^ rotr w x 11 ^^^ rotr w x 25

/-- `Sha2Context::lower_sigma0`. -/
def lowerSigma0 (w x : Nat) : Nat := rotr w x 7 ^^^ rotr w x 18 ^^^ (x >>> 3)

/-- `Sha2Context::lower_sigma1`. -/
def lowerSigma1 (w x : Nat) : Nat := rotr w x 17 ^^^ rotr w x 19 ^^^ (x >>> 10)

/-- `Sha2Context::ch`. -/
def ch (w x y z : Nat) : Nat := (x &&& y) ^^^ (wnot w x &&& z)

/-- `Sha2Context::maj`: `(x & (y | z)) | (y & z)`. -/
def maj (x y z : Nat) : Nat := (x &&& (y ||| z)) ||| (y &&& z)

/-- One step of the schedule expansion loop of
`Sha2Context::process_message_block` (`for t in 16..64`), producing
`w[t]` from the already-built prefix `ws` of length `t`. -/
def scheduleNext (w : Nat) (ws : List Nat) : Nat :=
  let n := ws.length
  wadd w
    (wadd w
      (wadd w (lowerSigma1 w (ws.getD (n - 2) 0)) (ws.getD (n - 7) 0))
      (lowerSigma0 w (ws.getD (n - 15) 0)))
    (ws.getD (n - 16) 0)

/-- The message schedule of `process_message_block`: 16 words parsed at
byte offsets `t * 4` (hardcoded in `context.rs`), then expanded to 64
entries. -/
def schedule (p : Sha2Params) (block : List Nat) : List Nat :=
  let w16 := (List.range 16).map (fun t => p.parseWord (block.drop (t * 4)))
  (List.range 48).foldl (fun ws _ => ws ++ [scheduleNext p.wordBits ws]) w16

/-- One compression round (`for t in 0..64` body) on the working
variables `[a, b, c, d, e, f, g, h]`. -/
def roundStep (p : Sha2Params) (st : List Nat) (kt wt : Nat) : List Nat :=
  match st with
  | [a, b, c, d, e, f, g, h] =>
    let w := p.wordBits
    let temp1 :=
      wadd w (wadd w (wadd w (wadd w h (upperSigma1 w e)) (ch w e f g)) kt) wt
    let temp2 := wadd w (upperSigma0 w a) (maj a b c)
    [wadd w temp1 temp2, a, b, c, wadd w d temp1, e, f, g]
  | other => other

/-- The pure compression function of `process_message_block`: schedule,
64 rounds, and the wrapping re-addition of the working variables into
the intermediate hash. -/
def compress (p : Sha2Params) (ihash block : List Nat) : List Nat :=
  let ws := schedule p block
  let final :=
    (List.range 64).foldl (fun st t => roundStep p st (p.k.getD t 0) (ws.getD t 0)) ihash
  (List.zip ihash final).map (fun q => wadd p.wordBits q.1 q.2)

/-- `Sha2Context<P>` from `context.rs`.  `length` is the `u128`
bit-length counter, `msgBlock` the byte buffer, `msgBlockIdx` the
cursor. -/
structure Sha2Context where
  intermediateHash : List Nat
  length : Nat
  msgBlockIdx : Nat
  msgBlock : List Nat
  computed : Bool
  corrupted : Sha2Corrupted
deriving DecidableEq, Repr

/-- `Sha2Context::new()`. -/
def Sha2Context.new (p : Sha2Params) : Sha2Context :=
  { intermediateHash := p.h0
    length := 0
    msgBlockIdx := 0
    msgBlock := List.replicate p.msgBlockSize 0
    computed := false
    corrupted := Sha2Corrupted.success }

/-- `Sha2Context::process_message_block`: updates the intermediate hash
by `compress`, resets the cursor, and returns
`self.corrupted.into_result(())` (the corrupted field as status). -/
def processMessageBlock (p : Sha2Params) (s : Sha2Context) :
    Sha2Context × Sha2Corrupted :=
  ({ s with
      intermediateHash := compress p s.intermediateHash s.msgBlock
      msgBlockIdx := 0 },
    s.corrupted)

/-- The `u128` range bound: `checked_add` succeeds iff the sum stays
below `2 ^ 128`. -/
def u128Bound : Nat := 2 ^ 128

/-- The per-byte write at the top of the `input` loop body:
`msg_block[self.msg_block_idx] = msg_chunk[0]; self.msg_block_idx += 1`. -/
def stepWrite (s : Sha2Context) (b : Nat) : Sha2Context :=
  { s with
      msgBlock := s.msgBlock.set s.msgBlockIdx b
      msgBlockIdx := s.msgBlockIdx + 1 }

/-- The byte write followed by the successful `checked_add(8)` length
update of the `input` loop body. -/
def stepWriteLen (s : Sha2Context) (b : Nat) : Sha2Context :=
  { stepWrite s b with length := (stepWrite s b).length + 8 }

/-- The `while !msg_chunk.is_empty()` loop of `Sha2Context::input`.
Returns the final state and `some e` when the `?` after
`process_message_block` propagated an error `e` (early return from
`input`); `none` when the loop ran to completion or exited via the
overflow `break`. -/
def inputLoop (p : Sha2Params) : Sha2Context → List Nat → Sha2Context × Option Sha2Corrupted
  | s, [] => (s, none)
  | s, b :: rest =>
    if (stepWrite s b).length + 8 < u128Bound then
      if (stepWriteLen s b).msgBlockIdx = p.msgBlockSize then
        if (processMessageBlock p (stepWriteLen s b)).2 = Sha2Corrupted.success then
          inputLoop p (processMessageBlock p (stepWriteLen s b)).1 rest
        else ((processMessageBlock p (stepWriteLen s b)).1,
          some (processMessageBlock p (stepWriteLen s b)).2)
      else inputLoop p (stepWriteLen s b) rest
    else ({ stepWrite s b with corrupted := Sha2Corrupted.stateError }, none)

/-- `Sha2Context::input`.  Returns the new state and the returned
status (`success` standing for `Ok(())`). -/
def input (p : Sha2Params) (s : Sha2Context) (chunk : List Nat) :
    Sha2Context × Sha2Corrupted :=
  if chunk = [] then (s, Sha2Corrupted.success)
  else
    let s0 := if s.computed then { s with corrupted := Sha2Corrupted.stateError } else s
    if s0.corrupted = Sha2Corrupted.success then
      match inputLoop p s0 chunk with
      | (sF, none) => (sF, sF.corrupted)
      | (sF, some e) => (sF, e)
    else (s0, s0.corrupted)

/-- Fuel-indexed form of the zero-fill `while` loops of
`pad_message`: each step writes `0` at the cursor and advances it. -/
def fillZerosAux : Nat → Sha2Context → Sha2Context
  | 0, s => s
  | n + 1, s =>
    fillZerosAux n
      { s with
          msgBlock := s.msgBlock.set s.msgBlockIdx 0
          msgBlockIdx := s.msgBlockIdx + 1 }

/-- `while self.msg_block_idx < target { msg_block[idx] = 0; idx += 1 }`. -/
def fillZeros (s : Sha2Context) (target : Nat) : Sha2Context :=
  fillZerosAux (target - s.msgBlockIdx) s

/-- The eight hardcoded length-byte writes of `pad_message`
(bytes 56..63, big-endian low 64 bits of the `u128` counter; the `as u8`
casts are the `% 256` reductions). -/
def writeLength (s : Sha2Context) : Sha2Context :=
  { s with
      msgBlock :=
        (((((((s.msgBlock.set 56 ((s.length >>> 56) % 256)).set 57
          ((s.length >>> 48) % 256)).set 58 ((s.length >>> 40) % 256)).set 59
          ((s.length >>> 32) % 256)).set 60 ((s.length >>> 24) % 256)).set 61
          ((s.length >>> 16) % 256)).set 62 ((s.length >>> 8) % 256)).set 63
          (s.length % 256) }

/-- Common tail of `Sha2Context::pad_message`: zero-fill up to
`MSG_BLOCK_SIZE - 8`, write the length bytes, compress. -/
def padMessageTail (p : Sha2Params) (t : Sha2Context) : Sha2Context × Sha2Corrupted :=
  processMessageBlock p (writeLength (fillZeros t (p.msgBlockSize - 8)))

/-- `Sha2Context::pad_message`.  In the first branch the `?` after the
intermediate `process_message_block` propagates its error; otherwise
both branches fall through to the common tail. -/
def padMessage (p : Sha2Params) (s : Sha2Context) (padByte : Nat) :
    Sha2Context × Sha2Corrupted :=
  if s.msgBlockIdx ≥ p.msgBlockSize - 8 then
    if (processMessageBlock p (fillZeros (stepWrite s padByte) p.msgBlockSize)).2 =
        Sha2Corrupted.success then
      padMessageTail p (processMessageBlock p (fillZeros (stepWrite s padByte) p.msgBlockSize)).1
    else processMessageBlock p (fillZeros (stepWrite s padByte) p.msgBlockSize)
  else padMessageTail p (stepWrite s padByte)

/-- The block-zeroing loop of `Sha2Context::finalize`
(`for i in 0..MSG_BLOCK_SIZE { msg_block[i] = 0 }`). -/
def zeroBlock (p : Sha2Params) (s : Sha2Context) : Sha2Context :=
  { s with msgBlock := (List.range p.msgBlockSize).foldl (fun b i => b.set i 0) s.msgBlock }

/-- `Sha2Context::finalize`. -/
def finalize (p : Sha2Params) (s : Sha2Context) (padByte : Nat) :
    Sha2Context × Sha2Corrupted :=
  if (padMessage p s padByte).2 = Sha2Corrupted.success then
    ({ zeroBlock p (padMessage p s padByte).1 with length := 0, computed := true },
      Sha2Corrupted.success)
  else padMessage p s padByte

/-- `Sha2Context::FINAL_BITS_MASKS`. -/
def FINAL_BITS_MASKS : List Nat := [0x00, 0x80, 0xc0, 0xe0, 0xf0, 0xf8, 0xfc, 0xfe]

/-- `Sha2Context::FINAL_BITS_MASKBIT`. -/
def FINAL_BITS_MASKBIT : List Nat := [0x80, 0x40, 0x20, 0x10, 0x08, 0x04, 0x02, 0x1]

/-- `Sha2Context::final_bits`. -/
def finalBits (p : Sha2Params) (s : Sha2Context) (msgBits msgBitsCount : Nat) :
    Sha2Context × Sha2Corrupted :=
  if msgBitsCount = 0 then (s, s.corrupted)
  else if s.corrupted = Sha2Corrupted.success then
    if s.computed then
      ({ s with corrupted := Sha2Corrupted.stateError }, Sha2Corrupted.stateError)
    else if msgBitsCount ≥ 8 then
      ({ s with corrupted := Sha2Corrupted.badParam }, Sha2Corrupted.badParam)
    else if s.length + msgBitsCount < u128Bound then
      if (finalize p { s with length := s.length + msgBitsCount }
            ((msgBits &&& FINAL_BITS_MASKS.getD msgBitsCount 0) |||
              FINAL_BITS_MASKBIT.getD msgBitsCount 0)).2 = Sha2Corrupted.success then
        ((finalize p { s with length := s.length + msgBitsCount }
            ((msgBits &&& FINAL_BITS_MASKS.getD msgBitsCount 0) |||
              FINAL_BITS_MASKBIT.getD msgBitsCount 0)).1,
          (finalize p { s with length := s.length + msgBitsCount }
            ((msgBits &&& FINAL_BITS_MASKS.getD msgBitsCount 0) |||
              FINAL_BITS_MASKBIT.getD msgBitsCount 0)).1.corrupted)
      else
        finalize p { s with length := s.length + msgBitsCount }
          ((msgBits &&& FINAL_BITS_MASKS.getD msgBitsCount 0) |||
            FINAL_BITS_MASKBIT.getD msgBitsCount 0)
    else ({ s with corrupted := Sha2Corrupted.stateError }, Sha2Corrupted.stateError)
  else (s, s.corrupted)

/-- `Sha2Context::result`.  The third component is the digest written
into `dst` (`none` when the call failed before `write_hash`). -/
def result (p : Sha2Params) (s : Sha2Context) :
    Sha2Context × Sha2Corrupted × Option (List Nat) :=
  if s.corrupted = Sha2Corrupted.success then
    if s.computed then (s, Sha2Corrupted.success, some (p.writeHash s.intermediateHash))
    else
      if (finalize p s 0x80).2 = Sha2Corrupted.success then
        ((finalize p s 0x80).1, Sha2Corrupted.success,
          some (p.writeHash (finalize p s 0x80).1.intermediateHash))
      else ((finalize p s 0x80).1, (finalize p s 0x80).2, none)
  else (s, s.corrupted, none)

/-- `Sha2Context::reset`. -/
def reset (p : Sha2Params) (s : Sha2Context) : Sha2Context × Sha2Corrupted :=
  ({ s with
      length := 0
      msgBlockIdx := 0
      intermediateHash := p.h0
      computed := false
      corrupted := Sha2Corrupted.success },
    Sha2Corrupted.success)

/-- `Sha256Params::parse_word`: big-endian 4-byte parse. -/
def parseWord32 (src : List Nat) : Nat :=
  (src.getD 0 0 <<< 24) ||| (src.getD 1 0 <<< 16) ||| (src.getD 2 0 <<< 8) ||| src.getD 3 0

/-- `Sha256Params::write_hash`: `dst[i] = (ihash[i >> 2] >> (8 * (3 - (i & 3)))) as u8`. -/
def writeHash256 (ihash : List Nat) : List Nat :=
  (List.range 32).map (fun i => ((ihash.getD (i >>> 2) 0) >>> (8 * (3 - (i &&& 3)))) % 256)

/-- `Sha512Params::parse_word`: big-endian 8-byte parse. -/
def parseWord64 (src : List Nat) : Nat :=
  (src.getD 0 0 <<< 56) ||| (src.getD 1 0 <<< 48) ||| (src.getD 2 0 <<< 40) |||
    (src.getD 3 0 <<< 32) ||| (src.getD 4 0 <<< 24) ||| (src.getD 5 0 <<< 16) |||
    (src.getD 6 0 <<< 8) ||| src.getD 7 0

/-- `Sha512Params::write_hash`: `dst[i] = (ihash[i >> 3] >> 8 * (7 - (i % 8))) as u8`. -/
def writeHash512 (ihash : List Nat) : List Nat :=
  (List.range 64).map (fun i => ((ihash.getD (i >>> 3) 0) >>> (8 * (7 - (i % 8)))) % 256)

/-- `Sha256Params` from `params.rs`. -/
def sha256Params : Sha2Params where
  wordBits := 32
  msgBlockSize := 64
  hashLenBytes := 32
  h0 := [0x6A09E667, 0xBB67AE85, 0x3C6EF372, 0xA54FF53A, 0x510E527F, 0x9B05688C,
    0x1F83D9AB, 0x5BE0CD19]
  k := [0x428A2F98, 0x71374491, 0xB5C0FBCF, 0xE9B5DBA5, 0x3956C25B, 0x59F111F1,
    0x923F82A4, 0xAB1C5ED5, 0xD807AA98, 0x12835B01, 0x243185BE, 0x550C7DC3,
    0x72BE5D74, 0x80DEB1FE, 0x9BDC06A7, 0xC19BF174, 0xE49B69C1, 0xEFBE4786,
    0x0FC19DC6, 0x240CA1CC, 0x2DE92C6F, 0x4A7484AA, 0x5CB0A9DC, 0x76F988DA,
    0x983E5152, 0xA831C66D, 0xB00327C8, 0xBF597FC7, 0xC6E00BF3, 0xD5A79147,
    0x06CA6351, 0x14292967, 0x27B70A85, 0x2E1B2138, 0x4D2C6DFC, 0x53380D13,
    0x650A7354, 0x766A0ABB, 0x81C2C92E, 0x92722C85, 0xA2BFE8A1, 0xA81A664B,
    0xC24B8B70, 0xC76C51A3, 0xD192E819, 0xD6990624, 0xF40E3585, 0x106AA070,
    0x19A4C116, 0x1E376C08, 0x2748774C, 0x34B0BCB5, 0x391C0CB3, 0x4ED8AA4A,
    0x5B9CCA4F, 0x682E6FF3, 0x748F82EE, 0x78A5636F, 0x84C87814, 0x8CC70208,
    0x90BEFFFA, 0xA4506CEB, 0xBEF9A3F7, 0xC67178F2]
  parseWord := parseWord32
  writeHash := writeHash256

/-- `Sha512Params` from `params.rs`. -/
def sha512Params : Sha2Params where
  wordBits := 64
  msgBlockSize := 128
  hashLenBytes := 64
  h0 := [0x6A09E667F3BCC908, 0xBB67AE8584CAA73B, 0x3C6EF372FE94F82B,
    0xA54FF53A5F1D36F1, 0x510E527FADE682D1, 0x9B05688C2B3E6C1F,
    0x1F83D9ABFB41BD6B, 0x5BE0CD19137E2179]
  k := [0x428A2F98D728AE22, 0x7137449123EF65CD, 0xB5C0FBCFEC4D3B2F,
    0xE9B5DBA58189DBBC, 0x3956C25BF348B538, 0x59F111F1B605D019,
    0x923F82A4AF194F9B, 0xAB1C5ED5DA6D8118, 0xD807AA98A3030242,
    0x12835B0145706FBE, 0x243185BE4EE4B28C, 0x550C7DC3D5FFB4E2,
    0x72BE5D74F27B896F, 0x80DEB1FE3B1696B1, 0x9BDC06A725C71235,
    0xC19BF174CF692694, 0xE49B69C19EF14AD2, 0xEFBE4786384F25E3,
    0x0FC19DC68B8CD5B5, 0x240CA1CC77AC9C65, 0x2DE92C6F592B0275,
    0x4A7484AA6EA6E483, 0x5CB0A9DCBD41FBD4, 0x76F988DA831153B5,
    0x983E5152EE66DFAB, 0xA831C66D2DB43210, 0xB00327C898FB213F,
    0xBF597FC7BEEF0EE4, 0xC6E00BF33DA88FC2, 0xD5A79147930AA725,
    0x06CA6351E003826F, 0x142929670A0E6E70, 0x27B70A8546D22FFC,
    0x2E1B21385C26C926, 0x4D2C6DFC5AC42AED, 0x53380D139D95B3DF,
    0x650A73548BAF63DE, 0x766A0ABB3C77B2A8, 0x81C2C92E47EDAEE6,
    0x92722C851482353B, 0xA2BFE8A14CF10364, 0xA81A664BBC423001,
    0xC24B8B70D0F89791, 0xC76C51A30654BE30, 0xD192E819D6EF5218,
    0xD69906245565A910, 0xF40E35855771202A, 0x106AA07032BBD1B8,
    0x19A4C116B8D2D0C8, 0x1E376C085141AB53, 0x2748774CDF8EEB99,
    0x34B0BCB5E19B48A8, 0x391C0CB3C5C95A63, 0x4ED8AA4AE3418ACB,
    0x5B9CCA4F7763E373, 0x682E6FF3D6B2B8A3, 0x748F82EE5DEFB2FC,
    0x78A5636F43172F60, 0x84C87814A1F0AB72, 0x8CC702081A6439EC,
    0x90BEFFFA23631E28, 0xA4506CEBDE82BDE9, 0xBEF9A3F7B2C67915,
    0xC67178F2E372532B, 0xCA273ECEEA26619C, 0xD186B8C721C0C207,
    0xEADA7DD6CDE0EB1E, 0xF57D4F7FEE6ED178, 0x06F067AA72176FBA,
    0x0A637DC5A2C898A6, 0x113F9804BEF90DAE, 0x1B710B35131C471B,
    0x28DB77F523047D84, 0x32CAAB7B40C72493, 0x3C9EBE0A15C9BEBC,
    0x431D67C49C100D4C, 0x4CC5D4BECB3E42B6, 0x597F299CFC657E2A,
    0x5FCB6FAB3AD6FAEC, 0x6C44198C4A475817]
  parseWord := parseWord64
  writeHash := writeHash512

/-- Big-endian serialization of the low 64 bits of the length counter,
as written by the eight hardcoded stores of `pad_message`. -/
def be64Bytes (L : Nat) : List Nat :=
  [(L >>> 56) % 256, (L >>> 48) % 256, (L >>> 40) % 256, (L >>> 32) % 256,
    (L >>> 24) % 256, (L >>> 16) % 256, (L >>> 8) % 256, L % 256]

/-- The digest the spec claims for the 32-bit-word variant on the empty
message (`e3b0c442 98fc1c14 9afbf4c8 996fb924 27ae41e4 649b934c a4959916
b7852b85`). -/
def sha256EmptyClaimedDigest : List Nat :=
  [0xe3, 0xb0, 0xc4, 0x42, 0x98, 0xfc, 0x1c, 0x14, 0x9a, 0xfb, 0xf4, 0xc8,
    0x99, 0x6f, 0xb9, 0x24, 0x27, 0xae, 0x41, 0xe4, 0x64, 0x9b, 0x93, 0x4c,
    0xa4, 0x95, 0x99, 0x16, 0xb7, 0x85, 0x2b, 0x85]

/-- The published SHA-256 digest of the empty message
(`e3b0c442 98fc1c14 9afbf4c8 996fb924 27ae41e4 649b934c a495991b
7852b855`). -/
def sha256EmptyPublishedDigest : List Nat :=
  [0xe3, 0xb0, 0xc4, 0x42, 0x98, 0xfc, 0x1c, 0x14, 0x9a, 0xfb, 0xf4, 0xc8,
    0x99, 0x6f, 0xb9, 0x24, 0x27, 0xae, 0x41, 0xe4, 0x64, 0x9b, 0x93, 0x4c,
    0xa4, 0x95, 0x99, 0x1b, 0x78, 0x52, 0xb8, 0x55]

/-- The published SHA-512 digest of the empty message, as claimed by the
spec for the 64-bit-word variant. -/
def sha512EmptyClaimedDigest : List Nat :=
  [0xcf, 0x83, 0xe1, 0x35, 0x7e, 0xef, 0xb8, 0xbd, 0xf1, 0x54, 0x28, 0x50,
    0xd6, 0x6d, 0x80, 0x07, 0xd6, 0x20, 0xe4, 0x05, 0x0b, 0x57, 0x15, 0xdc,
    0x83, 0xf4, 0xa9, 0x21, 0xd3, 0x6c, 0xe9, 0xce, 0x47, 0xd0, 0xd1, 0x3c,
    0x5d, 0x85, 0xf2, 0xb0, 0xff, 0x83, 0x18, 0xd2, 0x87, 0x7e, 0xec, 0x2f,
    0x63, 0xb9, 0x31, 0xbd, 0x47, 0x41, 0x7a, 0x81, 0xa5, 0x38, 0x32, 0x7a,
    0xf9, 0x27, 0xda, 0x3e]

/-- The bytes the engine actually writes for the 64-bit-word variant on
the empty message. -/
def sha512EmptyActualDigest : List Nat :=
  [0x45, 0x85, 0x00, 0x3c, 0xce, 0x45, 0xc8, 0x1c, 0x00, 0x92, 0x3c, 0xaf,
    0x99, 0xad, 0x27, 0x56, 0x78, 0x82, 0xf2, 0x3f, 0xde, 0xec, 0x92, 0x26,
    0xad, 0xd1, 0xd0, 0xfa, 0x3a, 0xbc, 0x79, 0xbc, 0xcf, 0xca, 0xff, 0x21,
    0x67, 0x8a, 0xe7, 0x12, 0x4a, 0xac, 0x2a, 0x9e, 0xc5, 0x32, 0x0d, 0x7a,
    0x34, 0xf3, 0xd7, 0xdf, 0x3f, 0x69, 0x5e, 0x4a, 0x54, 0xd9, 0x4b, 0xf3,
    0xf6, 0xcb, 0xe3, 0x27]

/-- A reachable corrupted context of the 32-bit-word variant: finalize
via `result`, then feed one more byte, which sets `StateError`. -/
def corruptCtx256 : Sha2Context :=
  (input sha256Params (result sha256Params (Sha2Context.new sha256Params)).1 [0]).1

/-! ### Preservation helper lemmas -/

/-- Replacing `corrupted` by its own value is the identity. -/
theorem setCorrupted_self (s : Sha2Context) : { s with corrupted := s.corrupted } = s := rfl

/-- `process_message_block` does not change the corrupted flag and
returns it as its status. -/
theorem processMessageBlock_corrupted (p : Sha2Params) (s : Sha2Context) :
    (processMessageBlock p s).1.corrupted = s.corrupted ∧
      (processMessageBlock p s).2 = s.corrupted :=
  ⟨rfl, rfl⟩

/-- The zero-fill loop changes neither `corrupted`, `computed`,
`length` nor the intermediate hash. -/
theorem fillZerosAux_preserves (n : Nat) :
    ∀ s : Sha2Context,
      (fillZerosAux n s).corrupted = s.corrupted ∧
        (fillZerosAux n s).computed = s.computed ∧
        (fillZerosAux n s).length = s.length ∧
        (fillZerosAux n s).intermediateHash = s.intermediateHash := by
  induction n with
  | zero => intro s; exact ⟨rfl, rfl, rfl, rfl⟩
  | succ m ih =>
    intro s
    simpa [fillZerosAux] using ih _

/-- The zero-fill loop does not change the corrupted flag. -/
theorem fillZeros_corrupted (t : Sha2Context) (n : Nat) :
    (fillZeros t n).corrupted = t.corrupted :=
  (fillZerosAux_preserves _ _).1

/-- The zero-fill loop does not change the computed flag. -/
theorem fillZeros_computed (t : Sha2Context) (n : Nat) :
    (fillZeros t n).computed = t.computed :=
  (fillZerosAux_preserves _ _).2.1

/-- The common padding tail does not change the corrupted flag and
returns it as its status. -/
theorem padMessageTail_corrupted (p : Sha2Params) (t : Sha2Context) :
    (padMessageTail p t).1.corrupted = t.corrupted ∧
      (padMessageTail p t).2 = t.corrupted := by
  constructor
  · show (writeLength (fillZeros t (p.msgBlockSize - 8))).corrupted = t.corrupted
    exact fillZeros_corrupted _ _
  · show (writeLength (fillZeros t (p.msgBlockSize - 8))).corrupted = t.corrupted
    exact fillZeros_corrupted _ _

/-- `pad_message` does not change the corrupted flag and returns it as
its status. -/
theorem padMessage_corrupted (p : Sha2Params) (s : Sha2Context) (b : Nat) :
    (padMessage p s b).1.corrupted = s.corrupted ∧
      (padMessage p s b).2 = s.corrupted := by
  unfold padMessage
  by_cases hc : s.msgBlockIdx ≥ p.msgBlockSize - 8
  · rw [if_pos hc]
    have hpr2 : (processMessageBlock p (fillZeros (stepWrite s b) p.msgBlockSize)).2 =
        s.corrupted := by
      show (fillZeros (stepWrite s b) p.msgBlockSize).corrupted = s.corrupted
      rw [fillZeros_corrupted]
      rfl
    have hpr1 : (processMessageBlock p (fillZeros (stepWrite s b) p.msgBlockSize)).1.corrupted =
        s.corrupted := by
      show (fillZeros (stepWrite s b) p.msgBlockSize).corrupted = s.corrupted
      rw [fillZeros_corrupted]
      rfl
    rw [hpr2]
    by_cases hs : s.corrupted = Sha2Corrupted.success
    · rw [if_pos hs]
      have h := padMessageTail_corrupted p
        (processMessageBlock p (fillZeros (stepWrite s b) p.msgBlockSize)).1
      rw [hpr1] at h
      exact h
    · rw [if_neg hs]
      exact ⟨hpr1, hpr2⟩
  · rw [if_neg hc]
    exact padMessageTail_corrupted p (stepWrite s b)

/-- On a non-corrupted context `finalize` succeeds, marks the context
computed, and keeps it non-corrupted. -/
theorem finalize_success (p : Sha2Params) (s : Sha2Context) (b : Nat)
    (h : s.corrupted = Sha2Corrupted.success) :
    (finalize p s b).2 = Sha2Corrupted.success ∧
      (finalize p s b).1.computed = true ∧
      (finalize p s b).1.corrupted = Sha2Corrupted.success := by
  have hp := padMessage_corrupted p s b
  unfold finalize
  rw [hp.2, h]
  exact ⟨rfl, rfl, by simp [zeroBlock, hp.1, h]⟩

/-! ### C1 -/

/-- C1 counterexample: the 32-bit-word variant digest of the empty
message is not the byte string stated by the claim (the claim's hex has
`a4959916 b7852b85` where the engine writes `a495991b 7852b855`). -/
theorem sha256_empty_not_claimed :
    (result sha256Params (Sha2Context.new sha256Params)).2.2 ≠
      some sha256EmptyClaimedDigest := by decide

/-- C1 (amended): constructing a 32-bit-word-variant context with
`new()` and calling `result` without prior input succeeds and writes
exactly the published SHA-256 digest of the empty message,
`e3b0c442 98fc1c14 9afbf4c8 996fb924 27ae41e4 649b934c a495991b
7852b855`. -/
theorem sha256_empty_digest :
    (result sha256Params (Sha2Context.new sha256Params)).2 =
      (Sha2Corrupted.success, some sha256EmptyPublishedDigest) := by decide

/-! ### C2 -/

/-- C2: the 64-bit-word variant does NOT produce the published SHA-512
empty-message digest: `result` on a fresh `Sha512Params` context
succeeds but writes `4585003c ce45c81c ...`, because the engine's
`process_message_block` and `pad_message` hardcode SHA-256 parameters
(64 rounds, `t * 4` word offsets, 32-bit rotation amounts, the
bit-length counter stored at bytes 56..63 instead of the final 8 bytes
of the 128-byte block). -/
theorem sha512_empty_digest_wrong :
    (result sha512Params (Sha2Context.new sha512Params)).2 =
        (Sha2Corrupted.success, some sha512EmptyActualDigest) ∧
      sha512EmptyActualDigest ≠ sha512EmptyClaimedDigest := by
  constructor
  · decide
  · decide

/-! ### C5 -/

/-- C5 counterexample: on a reachable corrupted context,
`final_bits(_, 0)` does not succeed — it returns the stored
`StateError` status (the code returns
`self.corrupted.into_result(())`, not unconditional success). -/
theorem finalBits_zero_corrupted_fails :
    (finalBits sha256Params corruptCtx256 0 0).2 ≠ Sha2Corrupted.success := by decide

/-- C5 (amended): for every context state and any bits value,
`final_bits(bits, 0)` mutates no field and returns the stored corrupted
status — success exactly when the context is not corrupted (including
when `computed` is true). -/
theorem finalBits_zero_noop (p : Sha2Params) (s : Sha2Context) (bits : Nat) :
    finalBits p s bits 0 = (s, s.corrupted) := rfl

/-! ### C7 -/

/-- C7: idempotence of `result`.  For every context on which a first
`result` call succeeds (any non-corrupted context), the first call
returns success, and a second `result` call returns success, leaves the
state unchanged, and writes the same digest bytes: it only
re-serializes the already-computed intermediate hash. -/
theorem result_idempotent (p : Sha2Params) (s : Sha2Context)
    (h : s.corrupted = Sha2Corrupted.success) :
    (result p s).2.1 = Sha2Corrupted.success ∧
      result p (result p s).1 =
        ((result p s).1, Sha2Corrupted.success, (result p s).2.2) := by
  by_cases hc : s.computed
  · simp [result, h, hc]
  · have hf := finalize_success p s 0x80 h
    simp [result, h, hc, hf.1, hf.2.1, hf.2.2]

/-- C7 witness: the theorem applied to a fresh 32-bit-word-variant
context. -/
theorem result_idempotent_witness :
    (result sha256Params (Sha2Context.new sha256Params)).2.1 = Sha2Corrupted.success ∧
      result sha256Params (result sha256Params (Sha2Context.new sha256Params)).1 =
        ((result sha256Params (Sha2Context.new sha256Params)).1, Sha2Corrupted.success,
          (result sha256Params (Sha2Context.new sha256Params)).2.2) :=
  result_idempotent sha256Params (Sha2Context.new sha256Params) rfl

/-! ### C8 -/

/-- C8 counterexample: after feeding one byte `0xAB` to a fresh context
and calling `reset`, the context is NOT the construction-time state:
`reset` does not clear the message-block buffer, whose byte 0 still
holds `0xAB` instead of 0. -/
theorem reset_not_construction_state :
    (reset sha256Params (input sha256Params (Sha2Context.new sha256Params) [0xAB]).1).1 ≠
      Sha2Context.new sha256Params := by decide

/-- C8 (amended): for every context state, `reset` returns Success and
restores intermediate hash (H0), cursor (0), length (0), computed
(false) and corrupted (Success) to their construction-time values while
retaining the current message-block buffer contents; and no other
public operation clears a non-Success corrupted status. -/
theorem reset_amended (p : Sha2Params) :
    (∀ s : Sha2Context,
      reset p s =
        ({ s with
            length := 0
            msgBlockIdx := 0
            intermediateHash := p.h0
            computed := false
            corrupted := Sha2Corrupted.success },
          Sha2Corrupted.success)) ∧
    (∀ (s : Sha2Context) (chunk : List Nat), s.corrupted ≠ Sha2Corrupted.success →
      (input p s chunk).1.corrupted ≠ Sha2Corrupted.success) ∧
    (∀ (s : Sha2Context) (bits count : Nat), s.corrupted ≠ Sha2Corrupted.success →
      (finalBits p s bits count).1.corrupted ≠ Sha2Corrupted.success) ∧
    (∀ s : Sha2Context, s.corrupted ≠ Sha2Corrupted.success →
      (result p s).1.corrupted ≠ Sha2Corrupted.success) := by
  refine ⟨fun s => rfl, ?_, ?_, ?_⟩
  · intro s chunk hc
    by_cases hch : chunk = []
    · simpa [input, hch] using hc
    · by_cases hcp : s.computed
      · simp [input, hch, hcp]
      · simp [input, hch, hcp, hc]
  · intro s bits count hc
    by_cases h0 : count = 0
    · simpa [finalBits, h0] using hc
    · have hcs : ¬s.corrupted = Sha2Corrupted.success := hc
      simp [finalBits, h0, hcs]
  · intro s hc
    simp [result, hc]

/-- Characterization of the successful `final_bits` path: with
`count` in `1..=7` on a non-corrupted, non-finalized context, the call
bumps the length and finalizes with pad byte
`(bits &&& (2^8 - 2^(8-count))) ||| 2^(7-count)` (the closed form of
the `FINAL_BITS_MASKS`/`FINAL_BITS_MASKBIT` tables). -/
theorem finalBits_finalize_state (p : Sha2Params) (s : Sha2Context) (bits count : Nat)
    (h1 : s.corrupted = Sha2Corrupted.success) (h2 : s.computed = false)
    (h3 : 1 ≤ count) (h4 : count ≤ 7) (h5 : s.length + count < u128Bound) :
    finalBits p s bits count =
      ((finalize p { s with length := s.length + count }
          ((bits &&& (2 ^ 8 - 2 ^ (8 - count))) ||| 2 ^ (7 - count))).1,
        Sha2Corrupted.success) := by
  have hc0 : ¬count = 0 := by omega
  have hge : ¬count ≥ 8 := by omega
  have hmask : FINAL_BITS_MASKS.getD count 0 = 2 ^ 8 - 2 ^ (8 - count) := by
    interval_cases count <;> rfl
  have hbit : FINAL_BITS_MASKBIT.getD count 0 = 2 ^ (7 - count) := by
    interval_cases count <;> rfl
  have hfin := finalize_success p { s with length := s.length + count }
    ((bits &&& (2 ^ 8 - 2 ^ (8 - count))) ||| 2 ^ (7 - count)) h1
  unfold finalBits
  rw [if_neg hc0, if_pos h1, if_neg (by simp [h2]), if_neg hge, if_pos h5, hmask, hbit,
    if_pos hfin.1, hfin.2.2]

/-! ### C6 -/

/-- C6 counterexample: at `bits = 1`, `count = 1` on a fresh 32-bit-word
variant context, `final_bits` does not finalize with the pad byte
obtained by masking `bits` to the LOW `count` bits and setting the next
higher bit to 1 (that reading gives `(1 % 2 ^ 1) ||| 2 ^ 1 = 3`); the
engine's tables keep the HIGH `count` bits and it finalizes with pad
byte `0x40` instead, yielding a different context. -/
theorem finalBits_low_mask_cex :
    finalBits sha256Params (Sha2Context.new sha256Params) 1 1 ≠
      ((finalize sha256Params
          { Sha2Context.new sha256Params with
              length := (Sha2Context.new sha256Params).length + 1 }
          ((1 % 2 ^ 1) ||| 2 ^ 1)).1,
        Sha2Corrupted.success) := by decide

/-- C6 (amended): for every non-corrupted, non-finalized context and
`count` in `1..=7` (and no counter overflow), `final_bits(bits, count)`
computes its padding terminator byte by masking `bits` to the HIGH
(most significant) `count` bits and setting the bit immediately below
them to 1 — `(bits &&& (2^8 - 2^(8-count))) ||| 2^(7-count)` — and then
finalizes the hash using that byte as the pad byte, returning
success. -/
theorem finalBits_pad_byte (p : Sha2Params) (s : Sha2Context) (bits count : Nat)
    (h1 : s.corrupted = Sha2Corrupted.success) (h2 : s.computed = false)
    (h3 : 1 ≤ count) (h4 : count ≤ 7) (h5 : s.length + count < u128Bound) :
    finalBits p s bits count =
      ((finalize p { s with length := s.length + count }
          ((bits &&& (2 ^ 8 - 2 ^ (8 - count))) ||| 2 ^ (7 - count))).1,
        Sha2Corrupted.success) :=
  finalBits_finalize_state p s bits count h1 h2 h3 h4 h5

/-- C6 witness: the amended theorem applied at a fresh context with
`bits = 1`, `count = 1`. -/
theorem finalBits_pad_byte_witness :
    finalBits sha256Params (Sha2Context.new sha256Params) 1 1 =
      ((finalize sha256Params
          { Sha2Context.new sha256Params with
              length := (Sha2Context.new sha256Params).length + 1 }
          ((1 &&& (2 ^ 8 - 2 ^ (8 - 1))) ||| 2 ^ (7 - 1))).1,
        Sha2Corrupted.success) :=
  finalBits_pad_byte sha256Params (Sha2Context.new sha256Params) 1 1 rfl rfl
    (by decide) (by decide) (by decide)

/-! ### C3 helper lemmas -/

/-- Proof helper: the net effect of one iteration of the `input` loop
on the context (write the byte; on length overflow mark `StateError`,
otherwise bump the length and compress when the block filled up). -/
def byteStep (p : Sha2Params) (s : Sha2Context) (b : Nat) : Sha2Context :=
  if (stepWrite s b).length + 8 < u128Bound then
    if (stepWriteLen s b).msgBlockIdx = p.msgBlockSize then
      (processMessageBlock p (stepWriteLen s b)).1
    else stepWriteLen s b
  else { stepWrite s b with corrupted := Sha2Corrupted.stateError }

/-- The input loop never changes the `computed` flag. -/
theorem inputLoop_computed (p : Sha2Params) :
    ∀ (l : List Nat) (s : Sha2Context), (inputLoop p s l).1.computed = s.computed := by
  intro l
  induction l with
  | nil => intro s; rfl
  | cons b rest ih =>
    intro s
    simp only [inputLoop]
    by_cases h8 : (stepWrite s b).length + 8 < u128Bound
    · rw [if_pos h8]
      by_cases hb : (stepWriteLen s b).msgBlockIdx = p.msgBlockSize
      · rw [if_pos hb]
        by_cases hc : (processMessageBlock p (stepWriteLen s b)).2 = Sha2Corrupted.success
        · rw [if_pos hc, ih]; rfl
        · rw [if_neg hc]; rfl
      · rw [if_neg hb, ih]; rfl
    · rw [if_neg h8]; rfl

/-- `byteStep` never changes the `computed` flag. -/
theorem byteStep_computed (p : Sha2Params) (s : Sha2Context) (b : Nat) :
    (byteStep p s b).computed = s.computed := by
  unfold byteStep
  by_cases h8 : (stepWrite s b).length + 8 < u128Bound
  · rw [if_pos h8]
    by_cases hb : (stepWriteLen s b).msgBlockIdx = p.msgBlockSize
    · rw [if_pos hb]; rfl
    · rw [if_neg hb]; rfl
  · rw [if_neg h8]; rfl

/-- `input` never changes the `computed` flag. -/
theorem input_computed (p : Sha2Params) (s : Sha2Context) (chunk : List Nat) :
    (input p s chunk).1.computed = s.computed := by
  by_cases hch : chunk = []
  · simp [input, hch]
  · by_cases hcp : s.computed
    · simp [input, hch, hcp]
    · by_cases hc : s.corrupted = Sha2Corrupted.success
      · have hl := inputLoop_computed p chunk s
        rcases he : inputLoop p s chunk with ⟨sF, e⟩
        rw [he] at hl
        simp only at hl
        cases e <;> simp [input, hch, hcp, hc, he, hl]
      · simp [input, hch, hcp, hc]

/-- On a corrupted, non-finalized context `input` leaves the state
unchanged. -/
theorem input_corrupted_noop (p : Sha2Params) (s : Sha2Context) (chunk : List Nat)
    (hcomp : s.computed = false) (hc : s.corrupted ≠ Sha2Corrupted.success) :
    (input p s chunk).1 = s := by
  by_cases hch : chunk = []
  · simp [input, hch]
  · simp [input, hch, hcomp, hc]

/-- On a non-corrupted, non-finalized context the state produced by
`input` is the state produced by the bare loop. -/
theorem input_eq_loop (p : Sha2Params) (s : Sha2Context) (chunk : List Nat)
    (hcomp : s.computed = false) (hc : s.corrupted = Sha2Corrupted.success) :
    (input p s chunk).1 = (inputLoop p s chunk).1 := by
  by_cases hch : chunk = []
  · subst hch; rfl
  · rcases he : inputLoop p s chunk with ⟨sF, e⟩
    cases e <;> simp [input, hch, hcomp, hc, he]

/-- Consuming the head byte: on a non-corrupted, non-finalized context,
`input` on `b :: rest` is `input` on `rest` from the `byteStep`
state. -/
theorem input_cons (p : Sha2Params) (s : Sha2Context) (b : Nat) (rest : List Nat)
    (hc : s.corrupted = Sha2Corrupted.success) (hcomp : s.computed = false) :
    (input p s (b :: rest)).1 = (input p (byteStep p s b) rest).1 := by
  rw [input_eq_loop p s (b :: rest) hcomp hc]
  simp only [inputLoop]
  by_cases h8 : (stepWrite s b).length + 8 < u128Bound
  · rw [if_pos h8]
    by_cases hb : (stepWriteLen s b).msgBlockIdx = p.msgBlockSize
    · rw [if_pos hb]
      have hsucc : (processMessageBlock p (stepWriteLen s b)).2 = Sha2Corrupted.success := hc
      rw [if_pos hsucc]
      have hbs : byteStep p s b = (processMessageBlock p (stepWriteLen s b)).1 := by
        rw [byteStep, if_pos h8, if_pos hb]
      rw [hbs]
      exact (input_eq_loop p (processMessageBlock p (stepWriteLen s b)).1 rest hcomp hc).symm
    · rw [if_neg hb]
      have hbs : byteStep p s b = stepWriteLen s b := by
        rw [byteStep, if_pos h8, if_neg hb]
      rw [hbs]
      exact (input_eq_loop p (stepWriteLen s b) rest hcomp hc).symm
  · rw [if_neg h8]
    have hbs : byteStep p s b = { stepWrite s b with corrupted := Sha2Corrupted.stateError } := by
      rw [byteStep, if_neg h8]
    rw [hbs]
    exact (input_corrupted_noop p
      { stepWrite s b with corrupted := Sha2Corrupted.stateError } rest hcomp (by simp)).symm

/-- Splitting the input byte stream at any point does not change the
resulting context (on non-finalized contexts). -/
theorem input_append (p : Sha2Params) :
    ∀ (a b : List Nat) (s : Sha2Context), s.computed = false →
      (input p (input p s a).1 b).1 = (input p s (a ++ b)).1 := by
  intro a
  induction a with
  | nil => intro b s _; rfl
  | cons x a' ih =>
    intro b s hcomp
    by_cases hc : s.corrupted = Sha2Corrupted.success
    · have h1 : ((x :: a') ++ b) = x :: (a' ++ b) := rfl
      rw [h1, input_cons p s x (a' ++ b) hc hcomp, input_cons p s x a' hc hcomp]
      exact ih b (byteStep p s x) (by rw [byteStep_computed]; exact hcomp)
    · have h1 := input_corrupted_noop p s (x :: a') hcomp hc
      have h2 := input_corrupted_noop p s ((x :: a') ++ b) hcomp hc
      have h3 := input_corrupted_noop p s b hcomp hc
      rw [h1, h2, h3]

/-- Feeding chunks one after another equals feeding their
concatenation (on non-finalized contexts). -/
theorem foldl_input_join (p : Sha2Params) :
    ∀ (chunks : List (List Nat)) (s : Sha2Context), s.computed = false →
      chunks.foldl (fun t c => (input p t c).1) s = (input p s chunks.flatten).1 := by
  intro chunks
  induction chunks with
  | nil => intro s _; rfl
  | cons c cs ih =>
    intro s hcomp
    rw [List.foldl_cons, ih (input p s c).1 (by rw [input_computed]; exact hcomp),
      input_append p c cs.flatten s hcomp]
    rfl

/-! ### C3 -/

/-- C3: chunking invariance.  For every way of splitting a message into
consecutive slices, feeding the slices to a fresh context via
successive `input()` calls produces exactly the same context state as
feeding the concatenated message in a single `input()` call — hence
`result` yields exactly the same digest. -/
theorem chunking_invariance (p : Sha2Params) (chunks : List (List Nat)) :
    chunks.foldl (fun t c => (input p t c).1) (Sha2Context.new p) =
        (input p (Sha2Context.new p) chunks.flatten).1 ∧
      result p (chunks.foldl (fun t c => (input p t c).1) (Sha2Context.new p)) =
        result p (input p (Sha2Context.new p) chunks.flatten).1 := by
  have h := foldl_input_join p chunks (Sha2Context.new p) rfl
  exact ⟨h, by rw [h]⟩

/-- C8 witness: the amended theorem applied at a concrete reachable
corrupted context. -/
theorem reset_amended_witness :
    reset sha256Params corruptCtx256 =
        ({ corruptCtx256 with
            length := 0
            msgBlockIdx := 0
            intermediateHash := sha256Params.h0
            computed := false
            corrupted := Sha2Corrupted.success }, Sha2Corrupted.success) ∧
      (input sha256Params corruptCtx256 [1]).1.corrupted ≠ Sha2Corrupted.success ∧
      (finalBits sha256Params corruptCtx256 0 3).1.corrupted ≠ Sha2Corrupted.success ∧
      (result sha256Params corruptCtx256).1.corrupted ≠ Sha2Corrupted.success := by
  have h := reset_amended sha256Params
  exact ⟨h.1 corruptCtx256, h.2.1 corruptCtx256 [1] (by decide),
    h.2.2.1 corruptCtx256 0 3 (by decide), h.2.2.2 corruptCtx256 (by decide)⟩

/-! ### Reachability -/

/-- Context states obtainable from `new()` by sequences of the public
operations `input`, `final_bits`, `result`, `reset`. -/
inductive Reachable (p : Sha2Params) : Sha2Context → Prop where
  | base : Reachable p (Sha2Context.new p)
  | step_input (s : Sha2Context) (chunk : List Nat) :
      Reachable p s → Reachable p (input p s chunk).1
  | step_finalBits (s : Sha2Context) (bits count : Nat) :
      Reachable p s → Reachable p (finalBits p s bits count).1
  | step_result (s : Sha2Context) :
      Reachable p s → Reachable p (result p s).1
  | step_reset (s : Sha2Context) :
      Reachable p s → Reachable p (reset p s).1

/-- In every reachable state, a `BadParam` corruption implies the
context is not finalized (the `computed` check of `final_bits` precedes
its `BadParam` check). -/
theorem reachable_badParam_not_computed (p : Sha2Params) :
    ∀ s : Sha2Context, Reachable p s →
      (s.corrupted = Sha2Corrupted.badParam → s.computed = false) := by
  intro s hr
  induction hr with
  | base => intro h; simp [Sha2Context.new] at h
  | step_input s chunk hr ih =>
    intro h
    rw [input_computed]
    by_cases hcp : s.computed
    · exfalso
      by_cases hch : chunk = []
      · rw [show (input p s chunk).1 = s from by simp [input, hch]] at h
        exact absurd (ih h) (by simp [hcp])
      · rw [show (input p s chunk).1 = { s with corrupted := Sha2Corrupted.stateError } from by
          simp [input, hch, hcp]] at h
        simp at h
    · simpa using hcp
  | step_finalBits s bits count hr ih =>
    intro h
    by_cases h0 : count = 0
    · rw [show (finalBits p s bits count).1 = s from by simp [finalBits, h0]] at h ⊢
      exact ih h
    · by_cases hcs : s.corrupted = Sha2Corrupted.success
      · by_cases hcp : s.computed
        · rw [show (finalBits p s bits count).1 =
              { s with corrupted := Sha2Corrupted.stateError } from by
            simp [finalBits, h0, hcs, hcp]] at h
          simp at h
        · by_cases h8 : count ≥ 8
          · rw [show (finalBits p s bits count).1 =
                { s with corrupted := Sha2Corrupted.badParam } from by
              simp [finalBits, h0, hcs, hcp, h8]]
            simpa using hcp
          · by_cases hov : s.length + count < u128Bound
            · have hfin := finalize_success p { s with length := s.length + count }
                ((bits &&& (2 ^ 8 - 2 ^ (8 - count))) ||| 2 ^ (7 - count)) hcs
              have hstate : (finalBits p s bits count).1 =
                  (finalize p { s with length := s.length + count }
                    ((bits &&& (2 ^ 8 - 2 ^ (8 - count))) ||| 2 ^ (7 - count))).1 := by
                rw [finalBits_finalize_state p s bits count hcs (by simpa using hcp)
                  (by omega) (by omega) hov]
              rw [hstate, hfin.2.2] at h
              simp at h
            · rw [show (finalBits p s bits count).1 =
                  { s with corrupted := Sha2Corrupted.stateError } from by
                simp [finalBits, h0, hcs, hcp, h8, hov]] at h
              simp at h
      · rw [show (finalBits p s bits count).1 = s from by simp [finalBits, h0, hcs]] at h ⊢
        exact ih h
  | step_result s hr ih =>
    intro h
    by_cases hcs : s.corrupted = Sha2Corrupted.success
    · by_cases hcp : s.computed
      · rw [show (result p s).1 = s from by simp [result, hcs, hcp]] at h ⊢
        exact ih h
      · have hfin := finalize_success p s 0x80 hcs
        rw [show (result p s).1 = (finalize p s 0x80).1 from by
          simp [result, hcs, hcp, hfin.1]] at h
        rw [hfin.2.2] at h
        simp at h
    · rw [show (result p s).1 = s from by simp [result, hcs]] at h ⊢
      exact ih h
  | step_reset s hr ih =>
    intro h
    simp [reset] at h

/-! ### C4 -/

/-- C4: sticky corruption.  On every reachable context whose corrupted
status is not Success, each public operation other than `reset` —
non-empty `input`, `final_bits` with count in `1..=7`, and `result` —
returns exactly the stored status as its error and leaves every field
of the context unchanged. -/
theorem sticky_corruption (p : Sha2Params) (s : Sha2Context) (hr : Reachable p s)
    (hc : s.corrupted ≠ Sha2Corrupted.success) :
    (∀ chunk : List Nat, chunk ≠ [] → input p s chunk = (s, s.corrupted)) ∧
      (∀ bits count : Nat, 1 ≤ count → count ≤ 7 →
        finalBits p s bits count = (s, s.corrupted)) ∧
      result p s = (s, s.corrupted, none) := by
  have hbp := reachable_badParam_not_computed p s hr
  refine ⟨?_, ?_, ?_⟩
  · intro chunk hch
    by_cases hcp : s.computed
    · have hse : s.corrupted = Sha2Corrupted.stateError := by
        cases hcor : s.corrupted
        · exact absurd hcor hc
        · exact absurd (hbp hcor) (by simp [hcp])
        · rfl
      rw [show input p s chunk =
          ({ s with corrupted := Sha2Corrupted.stateError }, Sha2Corrupted.stateError) from by
        simp [input, hch, hcp]]
      rw [← hse]
    · simp [input, hch, hcp, hc]
  · intro bits count h1c h7
    have h0 : ¬count = 0 := by omega
    simp [finalBits, h0, hc]
  · simp [result, hc]

/-- C4 witness: the theorem applied at the concrete reachable corrupted
context `corruptCtx256`. -/
theorem sticky_corruption_witness :
    input sha256Params corruptCtx256 [1] = (corruptCtx256, corruptCtx256.corrupted) ∧
      finalBits sha256Params corruptCtx256 0 1 = (corruptCtx256, corruptCtx256.corrupted) ∧
      result sha256Params corruptCtx256 = (corruptCtx256, corruptCtx256.corrupted, none) := by
  have hr : Reachable sha256Params corruptCtx256 :=
    Reachable.step_input _ [0] (Reachable.step_result _ Reachable.base)
  have h := sticky_corruption sha256Params corruptCtx256 hr (by decide)
  exact ⟨h.1 [1] (by decide), h.2.1 0 1 (by decide) (by decide), h.2.2⟩

/-! ### C10 helper definitions and lemmas -/

/-- The cursor/buffer well-formedness invariant: the cursor stays within
`[0, MSG_BLOCK_SIZE]`, is strictly below `MSG_BLOCK_SIZE` whenever the
context is not corrupted, and the buffer has exactly `MSG_BLOCK_SIZE`
bytes. -/
def GoodCtx (p : Sha2Params) (s : Sha2Context) : Prop :=
  s.msgBlockIdx ≤ p.msgBlockSize ∧
    (s.corrupted = Sha2Corrupted.success → s.msgBlockIdx < p.msgBlockSize) ∧
    s.msgBlock.length = p.msgBlockSize

/-- Bounds checker mirroring the `input` loop: before each buffer write
`msg_block[msg_block_idx] = byte` it checks that the cursor is a valid
index of the buffer. -/
def inputLoopInBounds (p : Sha2Params) : Sha2Context → List Nat → Bool
  | _, [] => true
  | s, b :: rest =>
    decide (s.msgBlockIdx < s.msgBlock.length) &&
      (if (stepWrite s b).length + 8 < u128Bound then
        if (stepWriteLen s b).msgBlockIdx = p.msgBlockSize then
          if (processMessageBlock p (stepWriteLen s b)).2 = Sha2Corrupted.success then
            inputLoopInBounds p (processMessageBlock p (stepWriteLen s b)).1 rest
          else true
        else inputLoopInBounds p (stepWriteLen s b) rest
      else true)

/-- Bounds checker mirroring `input`: the loop (and hence any buffer
write) is reached only on a non-empty chunk with `computed` false and
`corrupted` Success. -/
def inputInBounds (p : Sha2Params) (s : Sha2Context) (chunk : List Nat) : Bool :=
  if chunk = [] then true
  else if s.computed then true
  else if s.corrupted = Sha2Corrupted.success then inputLoopInBounds p s chunk
  else true

/-- The input loop keeps the context well-formed and every buffer write
in bounds, starting from a non-corrupted well-formed state. -/
theorem inputLoop_good (p : Sha2Params) (hp : 0 < p.msgBlockSize) :
    ∀ (l : List Nat) (s : Sha2Context),
      s.corrupted = Sha2Corrupted.success →
      s.msgBlockIdx < p.msgBlockSize →
      s.msgBlock.length = p.msgBlockSize →
      GoodCtx p (inputLoop p s l).1 ∧ inputLoopInBounds p s l = true := by
  intro l
  induction l with
  | nil =>
    intro s hc hidx hlen
    exact ⟨⟨Nat.le_of_lt hidx, fun _ => hidx, hlen⟩, rfl⟩
  | cons b rest ih =>
    intro s hc hidx hlen
    have hswLen : (stepWriteLen s b).msgBlock.length = p.msgBlockSize := by
      show (s.msgBlock.set s.msgBlockIdx b).length = p.msgBlockSize
      rw [List.length_set]; exact hlen
    have hinb : s.msgBlockIdx < s.msgBlock.length := by rw [hlen]; exact hidx
    simp only [inputLoop, inputLoopInBounds]
    by_cases h8 : (stepWrite s b).length + 8 < u128Bound
    · rw [if_pos h8, if_pos h8]
      by_cases hb : (stepWriteLen s b).msgBlockIdx = p.msgBlockSize
      · rw [if_pos hb, if_pos hb]
        have hsucc : (processMessageBlock p (stepWriteLen s b)).2 = Sha2Corrupted.success := hc
        rw [if_pos hsucc, if_pos hsucc]
        have hgood := ih (processMessageBlock p (stepWriteLen s b)).1 hc hp
          (show (stepWriteLen s b).msgBlock.length = p.msgBlockSize from hswLen)
        exact ⟨hgood.1, by simp [hinb, hgood.2]⟩
      · rw [if_neg hb, if_neg hb]
        have hlt : (stepWriteLen s b).msgBlockIdx < p.msgBlockSize := by
          show s.msgBlockIdx + 1 < p.msgBlockSize
          have hne : ¬s.msgBlockIdx + 1 = p.msgBlockSize := hb
          omega
        have hgood := ih (stepWriteLen s b) hc hlt hswLen
        exact ⟨hgood.1, by simp [hinb, hgood.2]⟩
    · rw [if_neg h8, if_neg h8]
      refine ⟨⟨?_, fun hcon => absurd hcon (by simp), ?_⟩, by simp [hinb]⟩
      · show s.msgBlockIdx + 1 ≤ p.msgBlockSize
        omega
      · show (s.msgBlock.set s.msgBlockIdx b).length = p.msgBlockSize
        rw [List.length_set]; exact hlen

/-- The zero-fill loop preserves the buffer length. -/
theorem fillZerosAux_blockLength (n : Nat) :
    ∀ s : Sha2Context, (fillZerosAux n s).msgBlock.length = s.msgBlock.length := by
  induction n with
  | zero => intro s; rfl
  | succ m ih =>
    intro s
    rw [show fillZerosAux (m + 1) s = fillZerosAux m
      { s with
          msgBlock := s.msgBlock.set s.msgBlockIdx 0
          msgBlockIdx := s.msgBlockIdx + 1 } from rfl, ih]
    show (s.msgBlock.set s.msgBlockIdx 0).length = s.msgBlock.length
    rw [List.length_set]

/-- The zero-fill loop preserves the buffer length (wrapper form). -/
theorem fillZeros_blockLength (t : Sha2Context) (n : Nat) :
    (fillZeros t n).msgBlock.length = t.msgBlock.length :=
  fillZerosAux_blockLength _ _

/-- The length-byte writes preserve the buffer length. -/
theorem writeLength_blockLength (s : Sha2Context) :
    (writeLength s).msgBlock.length = s.msgBlock.length := by
  show ((((((((s.msgBlock.set 56 _).set 57 _).set 58 _).set 59 _).set 60 _).set 61
    _).set 62 _).set 63 _).length = s.msgBlock.length
  simp [List.length_set]

/-- The common padding tail preserves the buffer length. -/
theorem padMessageTail_blockLength (p : Sha2Params) (t : Sha2Context) :
    (padMessageTail p t).1.msgBlock.length = t.msgBlock.length := by
  show (writeLength (fillZeros t (p.msgBlockSize - 8))).msgBlock.length = t.msgBlock.length
  rw [writeLength_blockLength]
  exact fillZerosAux_blockLength _ _

/-- `pad_message` preserves the buffer length. -/
theorem padMessage_blockLength (p : Sha2Params) (s : Sha2Context) (b : Nat) :
    (padMessage p s b).1.msgBlock.length = s.msgBlock.length := by
  unfold padMessage
  by_cases hcond : s.msgBlockIdx ≥ p.msgBlockSize - 8
  · rw [if_pos hcond]
    by_cases hs : (processMessageBlock p (fillZeros (stepWrite s b) p.msgBlockSize)).2 =
        Sha2Corrupted.success
    · rw [if_pos hs, padMessageTail_blockLength]
      show (fillZeros (stepWrite s b) p.msgBlockSize).msgBlock.length = s.msgBlock.length
      rw [fillZeros_blockLength]
      show (s.msgBlock.set s.msgBlockIdx b).length = s.msgBlock.length
      rw [List.length_set]
    · rw [if_neg hs]
      show (fillZeros (stepWrite s b) p.msgBlockSize).msgBlock.length = s.msgBlock.length
      rw [fillZeros_blockLength]
      show (s.msgBlock.set s.msgBlockIdx b).length = s.msgBlock.length
      rw [List.length_set]
  · rw [if_neg hcond, padMessageTail_blockLength]
    show (s.msgBlock.set s.msgBlockIdx b).length = s.msgBlock.length
    rw [List.length_set]

/-- The block-zeroing loop preserves the buffer length. -/
theorem foldl_set_zero_length :
    ∀ (l : List Nat) (buf : List Nat),
      (l.foldl (fun b i => b.set i 0) buf).length = buf.length := by
  intro l
  induction l with
  | nil => intro buf; rfl
  | cons i rest ih =>
    intro buf
    rw [List.foldl_cons, ih, List.length_set]

/-- On a non-corrupted context `pad_message` leaves the cursor at 0 (it
always ends with a compression). -/
theorem padMessage_idx (p : Sha2Params) (s : Sha2Context) (b : Nat)
    (hc : s.corrupted = Sha2Corrupted.success) :
    (padMessage p s b).1.msgBlockIdx = 0 := by
  unfold padMessage
  by_cases hcond : s.msgBlockIdx ≥ p.msgBlockSize - 8
  · rw [if_pos hcond]
    have hsucc : (processMessageBlock p (fillZeros (stepWrite s b) p.msgBlockSize)).2 =
        Sha2Corrupted.success := by
      show (fillZeros (stepWrite s b) p.msgBlockSize).corrupted = Sha2Corrupted.success
      rw [fillZeros_corrupted]
      exact hc
    rw [if_pos hsucc]
    rfl
  · rw [if_neg hcond]
    rfl

/-- On a non-corrupted context with a well-sized buffer, `finalize`
yields a well-formed context. -/
theorem finalize_good (p : Sha2Params) (hp : 0 < p.msgBlockSize) (s : Sha2Context) (b : Nat)
    (hc : s.corrupted = Sha2Corrupted.success)
    (hlen : s.msgBlock.length = p.msgBlockSize) :
    GoodCtx p (finalize p s b).1 := by
  have hpad2 : (padMessage p s b).2 = Sha2Corrupted.success :=
    (padMessage_corrupted p s b).2.trans hc
  unfold finalize
  rw [if_pos hpad2]
  have hidx : (zeroBlock p (padMessage p s b).1).msgBlockIdx = 0 := by
    show (padMessage p s b).1.msgBlockIdx = 0
    exact padMessage_idx p s b hc
  refine ⟨?_, fun _ => ?_, ?_⟩
  · show (zeroBlock p (padMessage p s b).1).msgBlockIdx ≤ p.msgBlockSize
    rw [hidx]
    exact Nat.zero_le _
  · show (zeroBlock p (padMessage p s b).1).msgBlockIdx < p.msgBlockSize
    rw [hidx]
    exact hp
  · show (zeroBlock p (padMessage p s b).1).msgBlock.length = p.msgBlockSize
    show ((List.range p.msgBlockSize).foldl (fun bb i => bb.set i 0)
      (padMessage p s b).1.msgBlock).length = p.msgBlockSize
    rw [foldl_set_zero_length, padMessage_blockLength, hlen]

/-- Every reachable context is well-formed. -/
theorem reachable_good (p : Sha2Params) (hp : 0 < p.msgBlockSize) :
    ∀ s : Sha2Context, Reachable p s → GoodCtx p s := by
  intro s hr
  induction hr with
  | base =>
    refine ⟨Nat.zero_le _, fun _ => hp, ?_⟩
    show (List.replicate p.msgBlockSize (0 : Nat)).length = p.msgBlockSize
    rw [List.length_replicate]
  | step_input s chunk hr ih =>
    by_cases hch : chunk = []
    · rw [show (input p s chunk).1 = s from by simp [input, hch]]
      exact ih
    · by_cases hcp : s.computed
      · rw [show (input p s chunk).1 = { s with corrupted := Sha2Corrupted.stateError } from by
          simp [input, hch, hcp]]
        exact ⟨ih.1, fun h => absurd h (by simp), ih.2.2⟩
      · by_cases hcs : s.corrupted = Sha2Corrupted.success
        · rw [input_eq_loop p s chunk (by simpa using hcp) hcs]
          exact (inputLoop_good p hp chunk s hcs (ih.2.1 hcs) ih.2.2).1
        · rw [input_corrupted_noop p s chunk (by simpa using hcp) hcs]
          exact ih
  | step_finalBits s bits count hr ih =>
    by_cases h0 : count = 0
    · rw [show (finalBits p s bits count).1 = s from by simp [finalBits, h0]]
      exact ih
    · by_cases hcs : s.corrupted = Sha2Corrupted.success
      · by_cases hcp : s.computed
        · rw [show (finalBits p s bits count).1 =
              { s with corrupted := Sha2Corrupted.stateError } from by
            simp [finalBits, h0, hcs, hcp]]
          exact ⟨ih.1, fun h => absurd h (by simp), ih.2.2⟩
        · by_cases h8 : count ≥ 8
          · rw [show (finalBits p s bits count).1 =
                { s with corrupted := Sha2Corrupted.badParam } from by
              simp [finalBits, h0, hcs, hcp, h8]]
            exact ⟨ih.1, fun h => absurd h (by simp), ih.2.2⟩
          · by_cases hov : s.length + count < u128Bound
            · have hstate : (finalBits p s bits count).1 =
                  (finalize p { s with length := s.length + count }
                    ((bits &&& (2 ^ 8 - 2 ^ (8 - count))) ||| 2 ^ (7 - count))).1 := by
                rw [finalBits_finalize_state p s bits count hcs (by simpa using hcp)
                  (by omega) (by omega) hov]
              rw [hstate]
              exact finalize_good p hp { s with length := s.length + count } _ hcs ih.2.2
            · rw [show (finalBits p s bits count).1 =
                  { s with corrupted := Sha2Corrupted.stateError } from by
                simp [finalBits, h0, hcs, hcp, h8, hov]]
              exact ⟨ih.1, fun h => absurd h (by simp), ih.2.2⟩
      · rw [show (finalBits p s bits count).1 = s from by simp [finalBits, h0, hcs]]
        exact ih
  | step_result s hr ih =>
    by_cases hcs : s.corrupted = Sha2Corrupted.success
    · by_cases hcp : s.computed
      · rw [show (result p s).1 = s from by simp [result, hcs, hcp]]
        exact ih
      · have hfin := finalize_success p s 0x80 hcs
        rw [show (result p s).1 = (finalize p s 0x80).1 from by
          simp [result, hcs, hcp, hfin.1]]
        exact finalize_good p hp s 0x80 hcs ih.2.2
    · rw [show (result p s).1 = s from by simp [result, hcs]]
      exact ih
  | step_reset s hr ih =>
    exact ⟨Nat.zero_le _, fun _ => hp, ih.2.2⟩

/-! ### C10 -/

/-- C10: cursor invariant.  In every reachable context state the cursor
satisfies `0 ≤ msg_block_idx ≤ MSG_BLOCK_SIZE` and is strictly below
`MSG_BLOCK_SIZE` whenever the context is not corrupted; every buffer
write performed by `input` happens at an in-bounds index (the bounds
checker mirroring the loop always succeeds, so the write never
panics); and the compression round resets the cursor to 0. -/
theorem cursor_invariant (p : Sha2Params) (hp : 0 < p.msgBlockSize)
    (s : Sha2Context) (hr : Reachable p s) :
    s.msgBlockIdx ≤ p.msgBlockSize ∧
      (s.corrupted = Sha2Corrupted.success → s.msgBlockIdx < p.msgBlockSize) ∧
      (∀ chunk : List Nat, inputInBounds p s chunk = true) ∧
      (processMessageBlock p s).1.msgBlockIdx = 0 := by
  have hg := reachable_good p hp s hr
  refine ⟨hg.1, hg.2.1, ?_, rfl⟩
  intro chunk
  unfold inputInBounds
  by_cases hch : chunk = []
  · rw [if_pos hch]
  · rw [if_neg hch]
    by_cases hcp : s.computed
    · rw [if_pos hcp]
    · rw [if_neg hcp]
      by_cases hcs : s.corrupted = Sha2Corrupted.success
      · rw [if_pos hcs]
        exact (inputLoop_good p hp chunk s hcs (hg.2.1 hcs) hg.2.2).2
      · rw [if_neg hcs]

/-- C10 witness: the theorem applied at the fresh 32-bit-word-variant
context with a concrete chunk. -/
theorem cursor_invariant_witness :
    (Sha2Context.new sha256Params).msgBlockIdx ≤ sha256Params.msgBlockSize ∧
      (Sha2Context.new sha256Params).msgBlockIdx < sha256Params.msgBlockSize ∧
      inputInBounds sha256Params (Sha2Context.new sha256Params) [1, 2, 3] = true ∧
      (processMessageBlock sha256Params (Sha2Context.new sha256Params)).1.msgBlockIdx = 0 := by
  have h := cursor_invariant sha256Params (by decide) (Sha2Context.new sha256Params)
    Reachable.base
  exact ⟨h.1, h.2.1 rfl, h.2.2.1 [1, 2, 3], h.2.2.2⟩

/-! ### C9 helper definitions and lemmas -/

/-- Sequential byte writes into a buffer starting at index `i` (the
cumulative effect of the per-byte stores of the `input` loop and of
`pad_message`). -/
def overwrite : List Nat → Nat → List Nat → List Nat
  | buf, _, [] => buf
  | buf, i, b :: bs => overwrite (buf.set i b) (i + 1) bs

/-- Setting the element right after a prefix replaces the head of the
suffix. -/
theorem set_append_cons :
    ∀ (pre : List Nat) (y : Nat) (suf : List Nat) (x : Nat),
      (pre ++ y :: suf).set pre.length x = pre ++ x :: suf := by
  intro pre
  induction pre with
  | nil => intro y suf x; rfl
  | cons h t ih =>
    intro y suf x
    simp only [List.cons_append, List.length_cons, List.set]
    exact congrArg (List.cons h) (ih y suf x)

/-- Overwriting the whole suffix after a prefix replaces the suffix. -/
theorem overwrite_append :
    ∀ (bs pre suf : List Nat), suf.length = bs.length →
      overwrite (pre ++ suf) pre.length bs = pre ++ bs := by
  intro bs
  induction bs with
  | nil =>
    intro pre suf h
    rw [List.length_eq_zero.mp h]
    rfl
  | cons b bs' ih =>
    intro pre suf h
    rcases suf with _ | ⟨y, suf'⟩
    · simp at h
    · show overwrite ((pre ++ y :: suf').set pre.length b) (pre.length + 1) bs' =
        pre ++ b :: bs'
      rw [set_append_cons]
      have hlen : (pre ++ [b]).length = pre.length + 1 := by
        rw [List.length_append, List.length_singleton]
      have happ : pre ++ b :: suf' = (pre ++ [b]) ++ suf' := by
        rw [List.append_assoc]; rfl
      have happ2 : pre ++ b :: bs' = (pre ++ [b]) ++ bs' := by
        rw [List.append_assoc]; rfl
      rw [happ, happ2, ← hlen, ih (pre ++ [b]) suf' (by simpa using h)]

/-- Overwriting an entire buffer from index 0 replaces it. -/
theorem overwrite_full (buf bs : List Nat) (h : buf.length = bs.length) :
    overwrite buf 0 bs = bs := by
  have := overwrite_append bs [] buf h
  simpa using this

/-- Two consecutive overwrites compose into one. -/
theorem overwrite_overwrite :
    ∀ (bs : List Nat) (cs buf : List Nat) (i j : Nat), j = i + bs.length →
      overwrite (overwrite buf i bs) j cs = overwrite buf i (bs ++ cs) := by
  intro bs
  induction bs with
  | nil =>
    intro cs buf i j h
    simp only [List.length_nil, Nat.add_zero] at h
    rw [h]
    rfl
  | cons b bs' ih =>
    intro cs buf i j h
    show overwrite (overwrite (buf.set i b) (i + 1) bs') j cs =
      overwrite (buf.set i b) (i + 1) (bs' ++ cs)
    exact ih cs (buf.set i b) (i + 1) j (by simp only [List.length_cons] at h; omega)

/-- Field-wise extensionality for contexts. -/
theorem ctxExt (a b : Sha2Context)
    (h1 : a.intermediateHash = b.intermediateHash) (h2 : a.length = b.length)
    (h3 : a.msgBlockIdx = b.msgBlockIdx) (h4 : a.msgBlock = b.msgBlock)
    (h5 : a.computed = b.computed) (h6 : a.corrupted = b.corrupted) : a = b := by
  cases a
  cases b
  simp_all

/-- The zero-fill loop writes `n` zero bytes starting at the cursor. -/
theorem fillZerosAux_msgBlock :
    ∀ (n : Nat) (s : Sha2Context),
      (fillZerosAux n s).msgBlock =
        overwrite s.msgBlock s.msgBlockIdx (List.replicate n 0) := by
  intro n
  induction n with
  | zero => intro s; rfl
  | succ m ih =>
    intro s
    show (fillZerosAux m
      { s with
          msgBlock := s.msgBlock.set s.msgBlockIdx 0
          msgBlockIdx := s.msgBlockIdx + 1 }).msgBlock = _
    rw [ih]
    rfl

/-- The zero-fill loop advances the cursor by its fuel. -/
theorem fillZerosAux_idx :
    ∀ (n : Nat) (s : Sha2Context),
      (fillZerosAux n s).msgBlockIdx = s.msgBlockIdx + n := by
  intro n
  induction n with
  | zero => intro s; rfl
  | succ m ih =>
    intro s
    show (fillZerosAux m
      { s with
          msgBlock := s.msgBlock.set s.msgBlockIdx 0
          msgBlockIdx := s.msgBlockIdx + 1 }).msgBlockIdx = _
    rw [ih]
    show s.msgBlockIdx + 1 + m = s.msgBlockIdx + (m + 1)
    omega

/-- The state update of one 64-byte-aligned block fed through `input`:
the block is compressed into the intermediate hash, 512 bits are added
to the counter, and the buffer holds the block's bytes with the cursor
back at 0. -/
def alignedStep (t : Sha2Context) (blk : List Nat) : Sha2Context :=
  { t with
      intermediateHash := compress sha256Params t.intermediateHash blk
      length := t.length + 512
      msgBlockIdx := 0
      msgBlock := blk }

/-- Consuming bytes that do not reach the end of the block: the loop
just copies them into the buffer and advances the cursor and the
counter. -/
theorem loopNoProcess :
    ∀ (bs : List Nat) (s : Sha2Context) (rest : List Nat),
      s.msgBlockIdx + bs.length < 64 →
      s.length + 8 * bs.length < u128Bound →
      inputLoop sha256Params s (bs ++ rest) =
        inputLoop sha256Params
          { s with
              msgBlock := overwrite s.msgBlock s.msgBlockIdx bs
              msgBlockIdx := s.msgBlockIdx + bs.length
              length := s.length + 8 * bs.length } rest := by
  intro bs
  induction bs with
  | nil =>
    intro s rest _ _
    rfl
  | cons b bs' ih =>
    intro s rest hidx hov
    have hidx' : s.msgBlockIdx + (bs'.length + 1) < 64 := hidx
    have hov' : s.length + 8 * (bs'.length + 1) < u128Bound := hov
    have h8 : (stepWrite s b).length + 8 < u128Bound := by
      show s.length + 8 < u128Bound
      omega
    have hbne : ¬(stepWriteLen s b).msgBlockIdx = sha256Params.msgBlockSize := by
      show ¬s.msgBlockIdx + 1 = 64
      omega
    show inputLoop sha256Params s (b :: (bs' ++ rest)) = _
    rw [show inputLoop sha256Params s (b :: (bs' ++ rest)) =
        inputLoop sha256Params (stepWriteLen s b) (bs' ++ rest) from by
      simp only [inputLoop]
      rw [if_pos h8, if_neg hbne]]
    rw [ih (stepWriteLen s b) rest (by show s.msgBlockIdx + 1 + bs'.length < 64; omega)
      (by show s.length + 8 + 8 * bs'.length < u128Bound; omega)]
    have hstate :
        ({ stepWriteLen s b with
            msgBlock := overwrite (stepWriteLen s b).msgBlock
              (stepWriteLen s b).msgBlockIdx bs'
            msgBlockIdx := (stepWriteLen s b).msgBlockIdx + bs'.length
            length := (stepWriteLen s b).length + 8 * bs'.length } : Sha2Context) =
        { s with
            msgBlock := overwrite s.msgBlock s.msgBlockIdx (b :: bs')
            msgBlockIdx := s.msgBlockIdx + (b :: bs').length
            length := s.length + 8 * (b :: bs').length } := by
      apply ctxExt
      · rfl
      · show s.length + 8 + 8 * bs'.length = s.length + 8 * (b :: bs').length
        show s.length + 8 + 8 * bs'.length = s.length + 8 * (bs'.length + 1)
        omega
      · show s.msgBlockIdx + 1 + bs'.length = s.msgBlockIdx + (b :: bs').length
        show s.msgBlockIdx + 1 + bs'.length = s.msgBlockIdx + (bs'.length + 1)
        omega
      · rfl
      · rfl
      · rfl
    rw [hstate]

/-- Consuming exactly one full 64-byte block from a block-aligned,
non-corrupted state: the loop performs one compression and the buffer
ends up holding the block. -/
theorem loopFullBlock (blk : List Nat) (s : Sha2Context) (rest : List Nat)
    (hc : s.corrupted = Sha2Corrupted.success)
    (hidx : s.msgBlockIdx = 0) (hblk : blk.length = 64)
    (hbuf : s.msgBlock.length = 64) (hov : s.length + 512 < u128Bound) :
    inputLoop sha256Params s (blk ++ rest) =
      inputLoop sha256Params (alignedStep s blk) rest := by
  have htd := List.take_append_drop 63 blk
  have hdlen : (blk.drop 63).length = 1 := by rw [List.length_drop, hblk]
  obtain ⟨x, hx⟩ := List.length_eq_one.mp hdlen
  have htlen : (blk.take 63).length = 63 := by
    rw [List.length_take, hblk]
    decide
  have hsplit : blk = blk.take 63 ++ [x] := by rw [← hx, htd]
  rw [hsplit]
  rw [List.append_assoc]
  rw [loopNoProcess (blk.take 63) s ([x] ++ rest)
    (by rw [htlen, hidx]; omega) (by rw [htlen]; omega)]
  show inputLoop sha256Params _ (x :: rest) = _
  have hmid :
      ({ s with
          msgBlock := overwrite s.msgBlock s.msgBlockIdx (blk.take 63)
          msgBlockIdx := s.msgBlockIdx + (blk.take 63).length
          length := s.length + 8 * (blk.take 63).length } : Sha2Context).msgBlockIdx = 63 := by
    show s.msgBlockIdx + (blk.take 63).length = 63
    rw [htlen, hidx]
  simp only [inputLoop]
  have h8 : (stepWrite { s with
      msgBlock := overwrite s.msgBlock s.msgBlockIdx (blk.take 63)
      msgBlockIdx := s.msgBlockIdx + (blk.take 63).length
      length := s.length + 8 * (blk.take 63).length } x).length + 8 < u128Bound := by
    show s.length + 8 * (blk.take 63).length + 8 < u128Bound
    rw [htlen]
    omega
  rw [if_pos h8]
  have hb64 : (stepWriteLen { s with
      msgBlock := overwrite s.msgBlock s.msgBlockIdx (blk.take 63)
      msgBlockIdx := s.msgBlockIdx + (blk.take 63).length
      length := s.length + 8 * (blk.take 63).length } x).msgBlockIdx =
      sha256Params.msgBlockSize := by
    show s.msgBlockIdx + (blk.take 63).length + 1 = 64
    rw [htlen, hidx]
  rw [if_pos hb64]
  have hsucc : (processMessageBlock sha256Params (stepWriteLen { s with
      msgBlock := overwrite s.msgBlock s.msgBlockIdx (blk.take 63)
      msgBlockIdx := s.msgBlockIdx + (blk.take 63).length
      length := s.length + 8 * (blk.take 63).length } x)).2 = Sha2Corrupted.success := hc
  rw [if_pos hsucc]
  have hstate : (processMessageBlock sha256Params (stepWriteLen { s with
      msgBlock := overwrite s.msgBlock s.msgBlockIdx (blk.take 63)
      msgBlockIdx := s.msgBlockIdx + (blk.take 63).length
      length := s.length + 8 * (blk.take 63).length } x)).1 =
      alignedStep s (blk.take 63 ++ [x]) := by
    have hfull : (overwrite s.msgBlock s.msgBlockIdx (blk.take 63)).set
        (s.msgBlockIdx + (blk.take 63).length) x =
        blk.take 63 ++ [x] := by
      have hset : (overwrite s.msgBlock s.msgBlockIdx (blk.take 63)).set
          (s.msgBlockIdx + (blk.take 63).length) x =
          overwrite (overwrite s.msgBlock s.msgBlockIdx (blk.take 63))
            (s.msgBlockIdx + (blk.take 63).length) [x] := rfl
      rw [hset, overwrite_overwrite (blk.take 63) [x] s.msgBlock s.msgBlockIdx _ rfl,
        hidx, overwrite_full]
      rw [hbuf, List.length_append, htlen, List.length_singleton]
    apply ctxExt
    · show compress sha256Params s.intermediateHash
        ((overwrite s.msgBlock s.msgBlockIdx (blk.take 63)).set
          (s.msgBlockIdx + (blk.take 63).length) x) =
        compress sha256Params s.intermediateHash (blk.take 63 ++ [x])
      rw [hfull]
    · show s.length + 8 * (blk.take 63).length + 8 = s.length + 512
      rw [htlen]
    · rfl
    · exact hfull
    · rfl
    · rfl
  rw [hstate, ← hsplit]

/-- `alignedStep` preserves the corrupted flag. -/
theorem alignedStep_corrupted (t : Sha2Context) (blk : List Nat) :
    (alignedStep t blk).corrupted = t.corrupted := rfl

/-- Feeding a concatenation of full blocks from a block-aligned,
non-corrupted, non-finalized state folds `alignedStep` over the
blocks. -/
theorem input_aligned :
    ∀ (blocks : List (List Nat)) (s : Sha2Context),
      s.corrupted = Sha2Corrupted.success → s.computed = false →
      s.msgBlockIdx = 0 → s.msgBlock.length = 64 →
      (∀ blk ∈ blocks, blk.length = 64) →
      s.length + 512 * blocks.length < u128Bound →
      (input sha256Params s blocks.flatten).1 = blocks.foldl alignedStep s := by
  intro blocks
  induction blocks with
  | nil => intro s _ _ _ _ _ _; rfl
  | cons blk blks ih =>
    intro s hc hcomp hidx hbuf hb hov
    have hov' : s.length + 512 * (blks.length + 1) < u128Bound := hov
    have hblk : blk.length = 64 := hb blk (List.mem_cons_self _ _)
    rw [show (blk :: blks).flatten = blk ++ blks.flatten from rfl]
    rw [input_eq_loop sha256Params s (blk ++ blks.flatten) hcomp hc]
    rw [loopFullBlock blk s blks.flatten hc hidx hblk hbuf (by omega)]
    rw [← input_eq_loop sha256Params (alignedStep s blk) blks.flatten hcomp hc]
    rw [ih (alignedStep s blk) hc hcomp rfl (by show blk.length = 64; exact hblk)
      (fun b hbm => hb b (List.mem_cons_of_mem _ hbm))
      (by show s.length + 512 + 512 * blks.length < u128Bound; omega)]
    rfl

/-- Projections of a fold of `alignedStep`: the corrupted flag. -/
theorem foldl_alignedStep_corrupted :
    ∀ (blocks : List (List Nat)) (s : Sha2Context),
      (blocks.foldl alignedStep s).corrupted = s.corrupted := by
  intro blocks
  induction blocks with
  | nil => intro s; rfl
  | cons blk blks ih => intro s; rw [List.foldl_cons, ih]; rfl

/-- Projections of a fold of `alignedStep`: the computed flag. -/
theorem foldl_alignedStep_computed :
    ∀ (blocks : List (List Nat)) (s : Sha2Context),
      (blocks.foldl alignedStep s).computed = s.computed := by
  intro blocks
  induction blocks with
  | nil => intro s; rfl
  | cons blk blks ih => intro s; rw [List.foldl_cons, ih]; rfl

/-- Projections of a fold of `alignedStep`: the cursor stays 0. -/
theorem foldl_alignedStep_idx :
    ∀ (blocks : List (List Nat)) (s : Sha2Context), s.msgBlockIdx = 0 →
      (blocks.foldl alignedStep s).msgBlockIdx = 0 := by
  intro blocks
  induction blocks with
  | nil => intro s h; exact h
  | cons blk blks ih => intro s _; rw [List.foldl_cons]; exact ih _ rfl

/-- Projections of a fold of `alignedStep`: the intermediate hash is
the fold of `compress` over the blocks. -/
theorem foldl_alignedStep_ihash :
    ∀ (blocks : List (List Nat)) (s : Sha2Context),
      (blocks.foldl alignedStep s).intermediateHash =
        blocks.foldl (fun ihash blk => compress sha256Params ihash blk)
          s.intermediateHash := by
  intro blocks
  induction blocks with
  | nil => intro s; rfl
  | cons blk blks ih => intro s; rw [List.foldl_cons, List.foldl_cons, ih]; rfl

/-- Projections of a fold of `alignedStep`: the bit-length counter. -/
theorem foldl_alignedStep_length :
    ∀ (blocks : List (List Nat)) (s : Sha2Context),
      (blocks.foldl alignedStep s).length = s.length + 512 * blocks.length := by
  intro blocks
  induction blocks with
  | nil => intro s; rfl
  | cons blk blks ih =>
    intro s
    rw [List.foldl_cons, ih]
    show s.length + 512 + 512 * blks.length = s.length + 512 * (blks.length + 1)
    omega

/-- Projections of a fold of `alignedStep`: the buffer length. -/
theorem foldl_alignedStep_blockLength :
    ∀ (blocks : List (List Nat)) (s : Sha2Context),
      (∀ blk ∈ blocks, blk.length = 64) → s.msgBlock.length = 64 →
      (blocks.foldl alignedStep s).msgBlock.length = 64 := by
  intro blocks
  induction blocks with
  | nil => intro s _ h; exact h
  | cons blk blks ih =>
    intro s hb hbuf
    rw [List.foldl_cons]
    exact ih _ (fun b hbm => hb b (List.mem_cons_of_mem _ hbm))
      (hb blk (List.mem_cons_self _ _))

/-- On a block-aligned (cursor 0) non-corrupted state, `pad_message`
with pad byte `0x80` compresses exactly one extra block consisting of
the pad byte, 55 zero bytes, and the 8-byte big-endian length field. -/
theorem padMessage_aligned (s : Sha2Context)
    (hidx : s.msgBlockIdx = 0) (hbuf : s.msgBlock.length = 64) :
    (padMessage sha256Params s 0x80).1 =
      { s with
          intermediateHash := compress sha256Params s.intermediateHash
            (0x80 :: (List.replicate 55 0 ++ be64Bytes s.length))
          msgBlockIdx := 0
          msgBlock := 0x80 :: (List.replicate 55 0 ++ be64Bytes s.length) } := by
  have hcond : ¬(s.msgBlockIdx ≥ sha256Params.msgBlockSize - 8) := by
    rw [hidx]; decide
  unfold padMessage
  rw [if_neg hcond]
  have hfz := fillZerosAux_preserves
    (sha256Params.msgBlockSize - 8 - (stepWrite s 0x80).msgBlockIdx) (stepWrite s 0x80)
  have hblk : (writeLength (fillZeros (stepWrite s 0x80)
      (sha256Params.msgBlockSize - 8))).msgBlock =
      0x80 :: (List.replicate 55 0 ++ be64Bytes s.length) := by
    show overwrite (fillZeros (stepWrite s 0x80) (sha256Params.msgBlockSize - 8)).msgBlock
      56 (be64Bytes (fillZeros (stepWrite s 0x80)
        (sha256Params.msgBlockSize - 8)).length) =
      0x80 :: (List.replicate 55 0 ++ be64Bytes s.length)
    have hlenp : (fillZeros (stepWrite s 0x80) (sha256Params.msgBlockSize - 8)).length =
        s.length := hfz.2.2.1
    rw [hlenp]
    have hm : (fillZeros (stepWrite s 0x80) (sha256Params.msgBlockSize - 8)).msgBlock =
        overwrite (stepWrite s 0x80).msgBlock (stepWrite s 0x80).msgBlockIdx
          (List.replicate (sha256Params.msgBlockSize - 8 -
            (stepWrite s 0x80).msgBlockIdx) 0) := fillZerosAux_msgBlock _ _
    rw [hm]
    have hswidx : (stepWrite s 0x80).msgBlockIdx = 1 := by
      show s.msgBlockIdx + 1 = 1
      rw [hidx]
    have hswblk : (stepWrite s 0x80).msgBlock = overwrite s.msgBlock 0 [0x80] := by
      show s.msgBlock.set s.msgBlockIdx 0x80 = (s.msgBlock.set 0 0x80)
      rw [hidx]
    rw [hswidx, hswblk]
    rw [show sha256Params.msgBlockSize - 8 - 1 = 55 from rfl]
    rw [overwrite_overwrite [0x80] (List.replicate 55 0) s.msgBlock 0 1 rfl]
    rw [overwrite_overwrite ([0x80] ++ List.replicate 55 0) (be64Bytes s.length)
      s.msgBlock 0 56 (by simp)]
    rw [overwrite_full s.msgBlock _ (by
      rw [hbuf, List.length_append, List.length_append, List.length_singleton,
        List.length_replicate]
      rfl)]
    rfl
  have hihash : (writeLength (fillZeros (stepWrite s 0x80)
      (sha256Params.msgBlockSize - 8))).intermediateHash = s.intermediateHash :=
    hfz.2.2.2
  have hcor : (writeLength (fillZeros (stepWrite s 0x80)
      (sha256Params.msgBlockSize - 8))).corrupted = s.corrupted := hfz.1
  have hcomp2 : (writeLength (fillZeros (stepWrite s 0x80)
      (sha256Params.msgBlockSize - 8))).computed = s.computed := hfz.2.1
  have hlen2 : (writeLength (fillZeros (stepWrite s 0x80)
      (sha256Params.msgBlockSize - 8))).length = s.length := hfz.2.2.1
  apply ctxExt
  · show compress sha256Params
      (writeLength (fillZeros (stepWrite s 0x80)
        (sha256Params.msgBlockSize - 8))).intermediateHash
      (writeLength (fillZeros (stepWrite s 0x80)
        (sha256Params.msgBlockSize - 8))).msgBlock =
      compress sha256Params s.intermediateHash
        (0x80 :: (List.replicate 55 0 ++ be64Bytes s.length))
    rw [hblk, hihash]
  · exact hlen2
  · rfl
  · exact hblk
  · exact hcomp2
  · exact hcor

/-- When padding succeeds, `finalize` keeps the intermediate hash
produced by `pad_message` (the block-zeroing step does not touch
it). -/
theorem finalize_ihash (p : Sha2Params) (s : Sha2Context) (b : Nat)
    (h : (padMessage p s b).2 = Sha2Corrupted.success) :
    (finalize p s b).1.intermediateHash =
      (padMessage p s b).1.intermediateHash := by
  unfold finalize
  rw [if_pos h]
  rfl

/-- `result` on a non-corrupted, non-finalized context finalizes with
pad byte `0x80` and serializes the finalized intermediate hash. -/
theorem result_not_computed (p : Sha2Params) (s : Sha2Context)
    (hc : s.corrupted = Sha2Corrupted.success) (hcomp : s.computed = false)
    (hfin2 : (finalize p s 0x80).2 = Sha2Corrupted.success) :
    result p s =
      ((finalize p s 0x80).1, Sha2Corrupted.success,
        some (p.writeHash (finalize p s 0x80).1.intermediateHash)) := by
  unfold result
  rw [if_pos hc, if_neg (show ¬(s.computed = true) from by rw [hcomp]; simp),
    if_pos hfin2]

/-- On a block-aligned, non-corrupted, non-finalized state, `result`
succeeds and the digest serializes the hash of exactly one extra
all-padding block (pad byte, zero fill, 8-byte length field). -/
theorem result_aligned (s : Sha2Context)
    (hc : s.corrupted = Sha2Corrupted.success) (hcomp : s.computed = false)
    (hidx : s.msgBlockIdx = 0) (hbuf : s.msgBlock.length = 64) :
    (result sha256Params s).2 =
      (Sha2Corrupted.success,
        some (writeHash256 (compress sha256Params s.intermediateHash
          (0x80 :: (List.replicate 55 0 ++ be64Bytes s.length))))) := by
  have hfin := finalize_success sha256Params s 0x80 hc
  have hpad2 : (padMessage sha256Params s 0x80).2 = Sha2Corrupted.success :=
    (padMessage_corrupted sha256Params s 0x80).2.trans hc
  have hihash : (finalize sha256Params s 0x80).1.intermediateHash =
      compress sha256Params s.intermediateHash
        (0x80 :: (List.replicate 55 0 ++ be64Bytes s.length)) := by
    rw [finalize_ihash sha256Params s 0x80 hpad2, padMessage_aligned s hidx hbuf]
  rw [result_not_computed sha256Params s hc hcomp hfin.1]
  show (Sha2Corrupted.success,
    some (sha256Params.writeHash (finalize sha256Params s 0x80).1.intermediateHash)) = _
  rw [hihash]
  rfl

/-! ### C9 -/

/-- C9: block-boundary padding.  For every message that is a
concatenation of full 64-byte blocks (so the cursor is 0 when
finalization begins), `result` on the 32-bit-word variant succeeds and
the digest is obtained by compressing the message blocks and then
exactly ONE additional block consisting of the pad byte `0x80`, 55 zero
bytes, and the 8-byte big-endian bit-length field — i.e. the total
number of compressed blocks is the number of full message blocks plus
one. -/
theorem block_boundary_padding (blocks : List (List Nat))
    (hb : ∀ blk ∈ blocks, blk.length = 64)
    (hov : 512 * blocks.length < u128Bound) :
    (input sha256Params (Sha2Context.new sha256Params) blocks.flatten).1.msgBlockIdx = 0 ∧
      (result sha256Params
          (input sha256Params (Sha2Context.new sha256Params) blocks.flatten).1).2 =
        (Sha2Corrupted.success,
          some (writeHash256 (compress sha256Params
            (blocks.foldl (fun ihash blk => compress sha256Params ihash blk)
              sha256Params.h0)
            (0x80 :: (List.replicate 55 0 ++ be64Bytes (512 * blocks.length)))))) := by
  have hnew : (Sha2Context.new sha256Params).msgBlock.length = 64 := by
    show (List.replicate 64 (0 : Nat)).length = 64
    rw [List.length_replicate]
  have hM := input_aligned blocks (Sha2Context.new sha256Params) rfl rfl rfl hnew hb
    (by show 0 + 512 * blocks.length < u128Bound; omega)
  rw [hM]
  constructor
  · exact foldl_alignedStep_idx blocks _ rfl
  · rw [result_aligned _ (foldl_alignedStep_corrupted blocks _)
      (foldl_alignedStep_computed blocks _) (foldl_alignedStep_idx blocks _ rfl)
      (foldl_alignedStep_blockLength blocks _ hb hnew)]
    rw [foldl_alignedStep_ihash, foldl_alignedStep_length]
    rw [show (Sha2Context.new sha256Params).length + 512 * blocks.length =
      512 * blocks.length from by show 0 + 512 * blocks.length = _; omega]
    rfl

/-- C9 witness: the theorem applied to a single all-zero 64-byte
block. -/
theorem block_boundary_padding_witness :
    (input sha256Params (Sha2Context.new sha256Params)
        [List.replicate 64 0].flatten).1.msgBlockIdx = 0 ∧
      (result sha256Params
          (input sha256Params (Sha2Context.new sha256Params)
            [List.replicate 64 0].flatten).1).2 =
        (Sha2Corrupted.success,
          some (writeHash256 (compress sha256Params
            ([List.replicate 64 0].foldl
              (fun ihash blk => compress sha256Params ihash blk) sha256Params.h0)
            (0x80 :: (List.replicate 55 0 ++
              be64Bytes (512 * [List.replicate 64 0].length)))))) :=
  block_boundary_padding [List.replicate 64 0] (by decide) (by decide)

/-- C9 counterexample: the block-boundary padding property fails for
the 64-bit-word variant.  Feeding one full 128-byte message block of
`0xAA` bytes and finalizing does NOT produce the digest of the message
block followed by one additional block consisting of the pad byte, 119
zero bytes, and the 8-byte big-endian length field (1024 bits) in the
final 8 bytes: `pad_message` writes the length at bytes 56..63 and
leaves the stale message bytes at 120..127, so the extra block — and
hence the digest — differs. -/
theorem block_boundary_padding_sha512_cex :
    (result sha512Params
        (input sha512Params (Sha2Context.new sha512Params)
          (List.replicate 128 0xAA)).1).2 ≠
      (Sha2Corrupted.success,
        some (sha512Params.writeHash (compress sha512Params
          (compress sha512Params sha512Params.h0 (List.replicate 128 0xAA))
          (0x80 :: (List.replicate 119 0 ++ be64Bytes 1024))))) := by decide

end ToySha2
